import Mathlib

/-!
Verification of `src/data/xpath_converter.py`.

The repository holds a single function `xpath_to_offsets(html_string, xpath,
substring=None)`.  We embed it shallowly: Python strings become `String`,
the Python dict `offsets` becomes the list of `(key, start, end)` assignments
made by the traversal loop, with lookup preferring the latest assignment
(dict overwrite semantics), Python `str.find` becomes a code-point level
first-occurrence search, and the three `ValueError`s become the constructors
of `XPathError`.  The external HTML/XPath library (`lxml`) is not part of the
repository source; the embedding is parameterised over a record `HtmlLib` of
its four operations (parse, xpath evaluation, node stringification,
document-order text traversal), and a concrete instance modelled from the
spec is supplied for the spec's scenario documents.
-/

/-- `leadsWith needle hay` is true when `needle` is an initial segment of
`hay` (character-by-character comparison). -/
def leadsWith : List Char → List Char → Bool
  | [], _ => true
  | _ :: _, [] => false
  | a :: as, b :: bs => a = b && leadsWith as bs

/-- First occurrence of `needle` in `hay`, as a code-point index, mirroring
Python's `str.find` (which the source compares against `-1`); `none` plays
the role of `-1`. -/
def findSub (needle : List Char) : List Char → Option Nat
  | [] => if leadsWith needle [] then some 0 else none
  | c :: hs =>
    if leadsWith needle (c :: hs) then some 0
    else (findSub needle hs).map (· + 1)

/-- `occursIn needle hay`: the string `needle` appears contiguously inside
`hay` (library-independent statement of "substring occurs"). -/
def occursIn (needle hay : String) : Prop :=
  ∃ p q, hay.data = p ++ needle.data ++ q

/-- Python slice `t[s:e]` for `0 ≤ s ≤ e`, by code points. -/
def pySlice (t : String) (s e : Nat) : String :=
  ⟨(t.data.drop s).take (e - s)⟩

/-- Total length of a list of fragments, in code points. -/
def strsLen (l : List String) : Nat :=
  (l.map String.length).sum

/-- The traversal loop of `xpath_to_offsets`: starting at position `pos`,
concatenate the fragments into `flat_text` and record, for each fragment in
order, the assignment `offsets[elem] = (start, end)` made for it.  Returns
`(flat_text, assignments)` with the assignments in traversal order. -/
def buildIndex : List String → Nat → String × List (String × Nat × Nat)
  | [], _ => ("", [])
  | t :: ts, pos =>
    (t ++ (buildIndex ts (pos + t.length)).1,
     (t, pos, pos + t.length) :: (buildIndex ts (pos + t.length)).2)

/-- Python dict lookup over the recorded assignment sequence: a later
assignment to the same key overwrites an earlier one, so lookup prefers the
latest (rightmost) assignment. -/
def dictLookup : List (String × Nat × Nat) → String → Option (Nat × Nat)
  | [], _ => none
  | (k, v) :: rest, key =>
    match dictLookup rest key with
    | some w => some w
    | none => if k = key then some v else none

/-- The three failure modes of `xpath_to_offsets` (all `ValueError` / dict
`KeyError` in the Python source; names follow the spec's taxonomy). -/
inductive XPathError where
  | noMatch (xpath : String)
  | lookupFailure (node_text : String)
  | substringNotFound (substring node_text : String)
deriving DecidableEq, Repr

/-- The external HTML-parsing-and-XPath library the source binds to
(`lxml`): lenient parse, XPath evaluation returning an ordered match list,
node stringification (`str(node)`), and document-order text traversal
(`doc.itertext()`). -/
structure HtmlLib (Doc Node : Type) where
  fromstring : String → Doc
  xpath : Doc → String → List Node
  str : Node → String
  itertext : Doc → List String

/-- Shallow embedding of `xpath_to_offsets` from
`src/data/xpath_converter.py`, parameterised over the library `lib`.
`substring = none` is Python's `substring=None`; the guard `if substring:`
tests truthiness, so `some ""` takes the else-branch exactly like `none`. -/
def xpath_to_offsets {Doc Node : Type} (lib : HtmlLib Doc Node)
    (html_string xpath : String) (substring : Option String) :
    Except XPathError (Nat × Nat) :=
  let doc := lib.fromstring html_string
  let nodes := lib.xpath doc xpath
  match nodes with
  | [] => .error (.noMatch xpath)
  | node :: _rest =>
    let node_text := lib.str node
    let offsets := (buildIndex (lib.itertext doc) 0).2
    match dictLookup offsets node_text with
    | none => .error (.lookupFailure node_text)
    | some (global_start, global_end) =>
      match substring with
      | some s =>
        if s = "" then .ok (global_start, global_end)
        else
          match findSub s.data node_text.data with
          | none => .error (.substringNotFound s node_text)
          | some local_index =>
            .ok (global_start + local_index, global_start + local_index + s.length)
      | none => .ok (global_start, global_end)

/-- Modelled from the spec: a document-tree node as produced by the external
HTML parser — elements with ordered children, and text leaves. -/
inductive HNode where
  | elem (tag : String) (children : List HNode)
  | text (s : String)

mutual

/-- Modelled from the spec: `itertext` — the document-order sequence of
text-bearing leaf contents of a tree. -/
def HNode.texts : HNode → List String
  | .text s => [s]
  | .elem _ cs => HNode.textsList cs

/-- Document-order text fragments of a forest of children. -/
def HNode.textsList : List HNode → List String
  | [] => []
  | c :: cs => HNode.texts c ++ HNode.textsList cs

end

/-- Modelled from the spec: node stringification — the matched node's text
content, as the spec's scenarios prescribe (matched text `"Hello"` for
`//p[1]` on the Hello/World document). -/
def HNode.textContent (n : HNode) : String :=
  String.join n.texts

mutual

/-- Modelled from the spec: all elements with the given tag, in document
order (support for the scenario XPath queries). -/
def HNode.byTag (tag : String) : HNode → List HNode
  | .text _ => []
  | .elem t cs => (if t = tag then [HNode.elem t cs] else []) ++ HNode.byTagList tag cs

/-- Elements with the given tag in a forest of children, document order. -/
def HNode.byTagList (tag : String) : List HNode → List HNode
  | [] => []
  | c :: cs => HNode.byTag tag c ++ HNode.byTagList tag cs

end

/-- Modelled from the spec: the lenient HTML parser of the external library,
given on the spec's scenario documents (the only documents the claims
evaluate concretely). -/
def specParse (s : String) : HNode :=
  if s = "<div><p>Hello</p><p>World</p></div>" then
    .elem "div" [.elem "p" [.text "Hello"], .elem "p" [.text "World"]]
  else if s = "<div><p>Same</p><p>Same</p></div>" then
    .elem "div" [.elem "p" [.text "Same"], .elem "p" [.text "Same"]]
  else if s = "<div><p>Hello World</p></div>" then
    .elem "div" [.elem "p" [.text "Hello World"]]
  else
    .elem "div" []

/-- Modelled from the spec: the XPath evaluator on the scenario queries —
`//tag` selects every `tag` element in document order, `//tag[1]` and
`//tag[2]` its first and second positional filters. -/
def specXPath (d : HNode) (q : String) : List HNode :=
  if q = "//p" then d.byTag "p"
  else if q = "//p[1]" then (d.byTag "p").take 1
  else if q = "//p[2]" then ((d.byTag "p").drop 1).take 1
  else if q = "//span" then d.byTag "span"
  else []

/-- Modelled from the spec: the concrete external-library instance used to
evaluate the spec's scenarios. -/
def specLib : HtmlLib HNode HNode :=
  { fromstring := specParse
    xpath := specXPath
    str := HNode.textContent
    itertext := HNode.texts }

/-- `String.length` is the number of characters. -/
theorem strLength_data (s : String) : s.length = s.data.length := rfl

/-- Fragment-list length distributes over cons. -/
theorem strsLen_cons (t : String) (ts : List String) :
    strsLen (t :: ts) = t.length + strsLen ts := by
  simp [strsLen]

/-- `leadsWith` decides the initial-segment relation. -/
theorem leadsWith_iff (n h : List Char) : leadsWith n h = true ↔ ∃ t, h = n ++ t := by
  induction n generalizing h with
  | nil => simp [leadsWith]
  | cons a as ih =>
    cases h with
    | nil => simp [leadsWith]
    | cons b bs =>
      simp only [leadsWith, Bool.and_eq_true, decide_eq_true_eq, ih]
      constructor
      · rintro ⟨rfl, t, rfl⟩
        exact ⟨t, rfl⟩
      · rintro ⟨t, ht⟩
        injection ht with h1 h2
        exact ⟨h1.symm, t, h2⟩

/-- Defining equation of `findSub` on the empty hay. -/
theorem findSub_nil (n : List Char) :
    findSub n [] = if leadsWith n [] then some 0 else none := rfl

/-- Defining equation of `findSub` on a cons hay. -/
theorem findSub_cons (n : List Char) (c : Char) (hs : List Char) :
    findSub n (c :: hs) =
      if leadsWith n (c :: hs) then some 0 else (findSub n hs).map (· + 1) := rfl

/-- When the needle is an initial segment, `findSub` answers `0`. -/
theorem findSub_of_leadsWith (n hay : List Char) (hl : leadsWith n hay = true) :
    findSub n hay = some 0 := by
  cases hay with
  | nil => rw [findSub_nil, if_pos hl]
  | cons c hs => rw [findSub_cons, if_pos hl]

/-- A successful `findSub` exhibits the needle at the reported index. -/
theorem findSub_some (n : List Char) :
    ∀ (hay : List Char) (i : Nat), findSub n hay = some i → ∃ t, hay.drop i = n ++ t := by
  intro hay
  induction hay with
  | nil =>
    intro i hf
    rw [findSub_nil] at hf
    split at hf
    · rename_i hl
      obtain ⟨t, ht⟩ := (leadsWith_iff _ _).mp hl
      injection hf with hi
      subst hi
      exact ⟨t, ht⟩
    · exact absurd hf (by simp)
  | cons c hs ih =>
    intro i hf
    rw [findSub_cons] at hf
    split at hf
    · rename_i hl
      obtain ⟨t, ht⟩ := (leadsWith_iff _ _).mp hl
      injection hf with hi
      subst hi
      exact ⟨t, ht⟩
    · cases hj : findSub n hs with
      | none => rw [hj] at hf; exact absurd hf (by simp)
      | some j =>
        rw [hj] at hf
        simp only [Option.map_some'] at hf
        injection hf with hi
        subst hi
        obtain ⟨t, ht⟩ := ih j hj
        exact ⟨t, ht⟩

/-- `findSub` succeeds exactly when the needle occurs somewhere in the hay. -/
theorem findSub_isSome_iff (n hay : List Char) :
    (∃ i, findSub n hay = some i) ↔ ∃ p q, hay = p ++ n ++ q := by
  constructor
  · rintro ⟨i, hf⟩
    obtain ⟨t, ht⟩ := findSub_some n hay i hf
    refine ⟨hay.take i, t, ?_⟩
    conv_lhs => rw [← List.take_append_drop i hay]
    rw [ht, List.append_assoc]
  · rintro ⟨p, q, rfl⟩
    induction p with
    | nil =>
      exact ⟨0, findSub_of_leadsWith _ _ ((leadsWith_iff _ _).mpr ⟨q, by simp⟩)⟩
    | cons c p' ih =>
      obtain ⟨j, hj⟩ := ih
      have hshape : (c :: p') ++ n ++ q = c :: (p' ++ n ++ q) := by simp
      by_cases hl : leadsWith n (c :: (p' ++ n ++ q)) = true
      · exact ⟨0, by rw [hshape]; exact findSub_of_leadsWith _ _ hl⟩
      · refine ⟨j + 1, ?_⟩
        rw [hshape, findSub_cons, if_neg hl, hj]
        rfl

/-- The empty string occurs in every string. -/
theorem occursIn_empty (t : String) : occursIn "" t :=
  ⟨[], t.data, rfl⟩

/-- The flattened text is the concatenation of the fragments, independent of
the starting position. -/
theorem buildIndex_fst (ts : List String) :
    ∀ pos : Nat, (buildIndex ts pos).1 = ts.foldr (fun a b => a ++ b) "" := by
  induction ts with
  | nil => intro pos; rfl
  | cons t ts ih => intro pos; simp [buildIndex, ih]

/-- The recorded assignments carry exactly the traversed fragments as keys,
in traversal order. -/
theorem buildIndex_keys (ts : List String) :
    ∀ pos : Nat, ((buildIndex ts pos).2).map (fun e => e.1) = ts := by
  induction ts with
  | nil => intro pos; rfl
  | cons t ts ih => intro pos; simp [buildIndex, ih]

/-- The `i`-th recorded assignment spans from the summed length of the
previous fragments to that plus its own length. -/
theorem buildIndex_entry (ts : List String) :
    ∀ (pos i : Nat),
      ((buildIndex ts pos).2)[i]? =
        (ts[i]?).map (fun t =>
          (t, pos + strsLen (ts.take i), pos + strsLen (ts.take i) + t.length)) := by
  induction ts with
  | nil => intro pos i; simp [buildIndex]
  | cons t ts ih =>
    intro pos i
    cases i with
    | zero => simp [buildIndex, strsLen]
    | succ j =>
      simp only [buildIndex, List.getElem?_cons_succ, List.take_succ_cons]
      rw [ih (pos + t.length) j]
      cases ts[j]? <;> simp [strsLen_cons, Nat.add_assoc]

/-- Dict lookup misses exactly the keys never assigned. -/
theorem dictLookup_eq_none_iff (entries : List (String × Nat × Nat)) (key : String) :
    dictLookup entries key = none ↔ key ∉ entries.map (fun e => e.1) := by
  induction entries with
  | nil => simp [dictLookup]
  | cons e es ih =>
    obtain ⟨k, v⟩ := e
    simp only [dictLookup, List.map_cons, List.mem_cons, not_or]
    cases hrest : dictLookup es key with
    | some w =>
      have hk : key ∈ es.map (fun e => e.1) := by
        by_contra hc
        have hnone := ih.mpr hc
        rw [hrest] at hnone
        cases hnone
      simp [hk]
    | none =>
      have hmem : key ∉ es.map (fun e => e.1) := ih.mp hrest
      by_cases hk : k = key
      · subst hk
        simp [hmem]
      · rw [if_neg hk]
        constructor
        · intro _
          exact ⟨fun h => hk h.symm, hmem⟩
        · intro _
          rfl

/-- On the built index, lookup misses exactly the texts absent from the
traversal. -/
theorem dictLookup_buildIndex_eq_none_iff (ts : List String) (pos : Nat) (key : String) :
    dictLookup (buildIndex ts pos).2 key = none ↔ key ∉ ts := by
  rw [dictLookup_eq_none_iff, buildIndex_keys]

/-- A successful lookup on the built index returns a span of the key's own
length, located at the key inside the flattened text. -/
theorem dictLookup_buildIndex_some (ts : List String) :
    ∀ (pos : Nat) (key : String) (s e : Nat),
      dictLookup (buildIndex ts pos).2 key = some (s, e) →
      ∃ d, s = pos + d ∧ e = s + key.length ∧ d + key.length ≤ strsLen ts ∧
        ((buildIndex ts pos).1.data.drop d).take key.length = key.data := by
  induction ts with
  | nil =>
    intro pos key s e h
    simp [buildIndex, dictLookup] at h
  | cons t ts ih =>
    intro pos key s e h
    simp only [buildIndex, dictLookup] at h
    cases hrest : dictLookup (buildIndex ts (pos + t.length)).2 key with
    | some w =>
      simp only [hrest, Option.some.injEq] at h
      rw [h] at hrest
      obtain ⟨d', hs, he, hle, hsl⟩ := ih (pos + t.length) key s e hrest
      refine ⟨t.length + d', by omega, he, ?_, ?_⟩
      · rw [strsLen_cons]
        omega
      · have hdata : (buildIndex (t :: ts) pos).1.data =
            t.data ++ (buildIndex ts (pos + t.length)).1.data := by
          simp [buildIndex]
        rw [hdata]
        have hl : t.data.length = t.length := rfl
        rw [← hl, List.drop_append]
        exact hsl
    | none =>
      simp only [hrest] at h
      by_cases ht : t = key
      · rw [if_pos ht] at h
        simp only [Option.some.injEq, Prod.mk.injEq] at h
        obtain ⟨h1, h2⟩ := h
        subst ht
        refine ⟨0, by omega, by omega, ?_, ?_⟩
        · rw [strsLen_cons]
          omega
        · have hdata : (buildIndex (t :: ts) pos).1.data =
              t.data ++ (buildIndex ts (pos + t.length)).1.data := by
            simp [buildIndex]
          rw [hdata, List.drop_zero]
          have hl : t.data.length = t.length := rfl
          rw [← hl, List.take_left]
      · rw [if_neg ht] at h
        exact absurd h (by simp)

/-- Lookup on the built index returns the span of the LAST occurrence of the
key in the traversal (dict overwrite semantics): the key splits the fragment
list around an occurrence after which it never recurs, and the returned span
starts at the summed length of everything before that occurrence. -/
theorem dictLookup_buildIndex_last (ts : List String) :
    ∀ (pos : Nat) (key : String), key ∈ ts →
      ∃ pre post, ts = pre ++ key :: post ∧ key ∉ post ∧
        dictLookup (buildIndex ts pos).2 key =
          some (pos + strsLen pre, pos + strsLen pre + key.length) := by
  induction ts with
  | nil => intro pos key h; cases h
  | cons t ts ih =>
    intro pos key hmem
    by_cases hts : key ∈ ts
    · obtain ⟨pre, post, heq, hpost, hlook⟩ := ih (pos + t.length) key hts
      refine ⟨t :: pre, post, by rw [List.cons_append, ← heq], hpost, ?_⟩
      simp only [buildIndex, dictLookup, hlook]
      rw [strsLen_cons, ← Nat.add_assoc]
    · have ht : t = key := by
        rcases List.mem_cons.mp hmem with h | h
        · exact h.symm
        · exact absurd h hts
      subst ht
      refine ⟨[], ts, rfl, hts, ?_⟩
      have hnone : dictLookup (buildIndex ts (pos + t.length)).2 t = none :=
        (dictLookup_buildIndex_eq_none_iff _ _ _).mpr hts
      simp [buildIndex, dictLookup, hnone, strsLen]

/-- `xpath_to_offsets`, with its let-bindings unfolded into the underlying
case analysis. -/
theorem xpath_to_offsets_eq {Doc Node : Type} (lib : HtmlLib Doc Node)
    (h x : String) (sub : Option String) :
    xpath_to_offsets lib h x sub =
      match lib.xpath (lib.fromstring h) x with
      | [] => .error (.noMatch x)
      | node :: _ =>
        match dictLookup (buildIndex (lib.itertext (lib.fromstring h)) 0).2 (lib.str node) with
        | none => .error (.lookupFailure (lib.str node))
        | some (gs, ge) =>
          match sub with
          | some s =>
            if s = "" then .ok (gs, ge)
            else
              match findSub s.data (lib.str node).data with
              | none => .error (.substringNotFound s (lib.str node))
              | some i => .ok (gs + i, gs + i + s.length)
          | none => .ok (gs, ge) := rfl

/-- Anatomy of a successful call: a first match exists, its stringification
is found in the index at some span `(gs, ge)`, and the result is either the
narrowed span of a non-empty substring located by `findSub`, or the full
span when the substring is absent or empty. -/
theorem xpath_to_offsets_ok {Doc Node : Type} (lib : HtmlLib Doc Node)
    (h x : String) (sub : Option String) (st en : Nat)
    (hok : xpath_to_offsets lib h x sub = .ok (st, en)) :
    ∃ node rest gs ge,
      lib.xpath (lib.fromstring h) x = node :: rest ∧
      dictLookup (buildIndex (lib.itertext (lib.fromstring h)) 0).2 (lib.str node) =
        some (gs, ge) ∧
      ((∃ s, sub = some s ∧ s ≠ "" ∧
          ∃ i, findSub s.data (lib.str node).data = some i ∧
            st = gs + i ∧ en = gs + i + s.length)
       ∨ ((sub = none ∨ sub = some "") ∧ st = gs ∧ en = ge)) := by
  cases hms : lib.xpath (lib.fromstring h) x with
  | nil =>
    have hf : xpath_to_offsets lib h x sub = .error (.noMatch x) := by
      rw [xpath_to_offsets_eq, hms]
    rw [hf] at hok
    cases hok
  | cons node rest =>
    cases hlook : dictLookup (buildIndex (lib.itertext (lib.fromstring h)) 0).2
        (lib.str node) with
    | none =>
      have hf : xpath_to_offsets lib h x sub = .error (.lookupFailure (lib.str node)) := by
        rw [xpath_to_offsets_eq, hms]
        simp [hlook]
      rw [hf] at hok
      cases hok
    | some p =>
      obtain ⟨gs, ge⟩ := p
      refine ⟨node, rest, gs, ge, rfl, hlook, ?_⟩
      cases sub with
      | none =>
        have hf : xpath_to_offsets lib h x none = .ok (gs, ge) := by
          rw [xpath_to_offsets_eq, hms]
          simp [hlook]
        rw [hf] at hok
        simp only [Except.ok.injEq, Prod.mk.injEq] at hok
        exact Or.inr ⟨Or.inl rfl, hok.1.symm, hok.2.symm⟩
      | some s =>
        by_cases hs : s = ""
        · subst hs
          have hf : xpath_to_offsets lib h x (some "") = .ok (gs, ge) := by
            rw [xpath_to_offsets_eq, hms]
            simp [hlook]
          rw [hf] at hok
          simp only [Except.ok.injEq, Prod.mk.injEq] at hok
          exact Or.inr ⟨Or.inr rfl, hok.1.symm, hok.2.symm⟩
        · cases hfind : findSub s.data (lib.str node).data with
          | none =>
            have hf : xpath_to_offsets lib h x (some s) =
                .error (.substringNotFound s (lib.str node)) := by
              rw [xpath_to_offsets_eq, hms]
              simp [hlook, hs, hfind]
            rw [hf] at hok
            cases hok
          | some i =>
            have hf : xpath_to_offsets lib h x (some s) =
                .ok (gs + i, gs + i + s.length) := by
              rw [xpath_to_offsets_eq, hms]
              simp [hlook, hs, hfind]
            rw [hf] at hok
            simp only [Except.ok.injEq, Prod.mk.injEq] at hok
            exact Or.inl ⟨s, rfl, hs, i, hfind, hok.1.symm, hok.2.symm⟩

/-- A `findSub` index never exceeds the hay's length. -/
theorem findSub_le (n : List Char) :
    ∀ (hay : List Char) (i : Nat), findSub n hay = some i → i ≤ hay.length := by
  intro hay
  induction hay with
  | nil =>
    intro i hf
    rw [findSub_nil] at hf
    split at hf
    · injection hf with hi
      omega
    · cases hf
  | cons c hs ih =>
    intro i hf
    rw [findSub_cons] at hf
    split at hf
    · injection hf with hi
      simp only [List.length_cons]
      omega
    · cases hj : findSub n hs with
      | none => rw [hj] at hf; cases hf
      | some j =>
        rw [hj] at hf
        simp only [Option.map_some'] at hf
        injection hf with hi
        have hle := ih j hj
        simp only [List.length_cons]
        omega

/-- Slicing the flattened text at a span found by dict lookup recovers the
key exactly. -/
theorem slice_of_lookup (ts : List String) (key : String) (s e : Nat)
    (hl : dictLookup (buildIndex ts 0).2 key = some (s, e)) :
    pySlice (buildIndex ts 0).1 s e = key := by
  obtain ⟨d, hs, he, _hle, hsl⟩ := dictLookup_buildIndex_some ts 0 key s e hl
  have hd : d = s := by omega
  subst hd
  have hes : e - d = key.length := by omega
  rw [pySlice, hes, hsl]

/-- Slicing the flattened text at a narrowed substring span recovers the
substring exactly. -/
theorem slice_of_lookup_findSub (ts : List String) (key sub : String) (gs ge i : Nat)
    (hl : dictLookup (buildIndex ts 0).2 key = some (gs, ge))
    (hf : findSub sub.data key.data = some i) :
    pySlice (buildIndex ts 0).1 (gs + i) (gs + i + sub.length) = sub := by
  obtain ⟨d, hgs, _hge, _hle, hsl⟩ := dictLookup_buildIndex_some ts 0 key gs ge hl
  have hd : d = gs := by omega
  subst hd
  obtain ⟨tail, htail⟩ := findSub_some sub.data key.data i hf
  have hile : i ≤ key.data.length := findSub_le sub.data key.data i hf
  have hsplit : (buildIndex ts 0).1.data.drop d =
      key.data ++ ((buildIndex ts 0).1.data.drop d).drop key.length := by
    conv_lhs => rw [← List.take_append_drop key.length ((buildIndex ts 0).1.data.drop d)]
    rw [hsl]
  have harith : d + i + sub.length - (d + i) = sub.length := by omega
  have hdrop : (buildIndex ts 0).1.data.drop (d + i) =
      ((buildIndex ts 0).1.data.drop d).drop i := (List.drop_drop i d _).symm
  rw [pySlice, harith, hdrop, hsplit, List.drop_append_of_le_length hile, htail,
    List.append_assoc]
  have htake : (sub.data ++ (tail ++ ((buildIndex ts 0).1.data.drop d).drop key.length)).take
      sub.length = sub.data := List.take_left' rfl
  rw [htake]

/-- C4: on the document `<div><p>Hello</p><p>World</p></div>` with no
substring, xpath `//p[1]` matches text `"Hello"` and yields span `(0, 5)`,
and xpath `//p[2]` matches text `"World"` and yields span `(5, 10)`. -/
theorem c4_scenario_first_and_second :
    ((specLib.xpath (specLib.fromstring "<div><p>Hello</p><p>World</p></div>") "//p[1]").map
        specLib.str = ["Hello"]
      ∧ xpath_to_offsets specLib "<div><p>Hello</p><p>World</p></div>" "//p[1]" none =
        .ok (0, 5))
    ∧ ((specLib.xpath (specLib.fromstring "<div><p>Hello</p><p>World</p></div>") "//p[2]").map
        specLib.str = ["World"]
      ∧ xpath_to_offsets specLib "<div><p>Hello</p><p>World</p></div>" "//p[2]" none =
        .ok (5, 10)) :=
  ⟨⟨rfl, rfl⟩, ⟨rfl, rfl⟩⟩

/-- C9: the operation is deterministic — two calls with equal inputs return
equal outcomes; there is no hidden state. -/
theorem c9_deterministic {Doc Node : Type} (lib : HtmlLib Doc Node)
    (h1 x1 : String) (s1 : Option String) (h2 x2 : String) (s2 : Option String)
    (hh : h1 = h2) (hx : x1 = x2) (hs : s1 = s2) :
    xpath_to_offsets lib h1 x1 s1 = xpath_to_offsets lib h2 x2 s2 := by
  rw [hh, hx, hs]

/-- Witness for C9 at a concrete repeated call. -/
theorem c9_deterministic_witness :
    xpath_to_offsets specLib "<div><p>Hello</p><p>World</p></div>" "//p[1]" none =
      xpath_to_offsets specLib "<div><p>Hello</p><p>World</p></div>" "//p[1]" none :=
  c9_deterministic specLib "<div><p>Hello</p><p>World</p></div>" "//p[1]" none
    "<div><p>Hello</p><p>World</p></div>" "//p[1]" none rfl rfl rfl

/-- C10: an empty provided substring is treated exactly like an absent one
(the guard tests truthiness): the call returns the same result as with no
substring, and can never fail with a substring-not-found error. -/
theorem c10_empty_substring_like_none {Doc Node : Type} (lib : HtmlLib Doc Node)
    (h x : String) :
    xpath_to_offsets lib h x (some "") = xpath_to_offsets lib h x none
    ∧ ∀ s t, xpath_to_offsets lib h x (some "") ≠ .error (.substringNotFound s t) := by
  have heq : xpath_to_offsets lib h x (some "") = xpath_to_offsets lib h x none := by
    rw [xpath_to_offsets_eq, xpath_to_offsets_eq]
    cases lib.xpath (lib.fromstring h) x with
    | nil => rfl
    | cons node rest =>
      cases dictLookup (buildIndex (lib.itertext (lib.fromstring h)) 0).2 (lib.str node) with
      | none => rfl
      | some p =>
        obtain ⟨gs, ge⟩ := p
        simp
  refine ⟨heq, ?_⟩
  intro s t hcon
  rw [heq, xpath_to_offsets_eq] at hcon
  cases hms : lib.xpath (lib.fromstring h) x with
  | nil =>
    rw [hms] at hcon
    exact absurd hcon (by simp)
  | cons node rest =>
    rw [hms] at hcon
    cases hlook : dictLookup (buildIndex (lib.itertext (lib.fromstring h)) 0).2
        (lib.str node) with
    | none =>
      simp only [hlook] at hcon
      exact absurd hcon (by simp)
    | some p =>
      obtain ⟨gs, ge⟩ := p
      simp only [hlook] at hcon
      exact absurd hcon (by simp)

/-- Witness for C10 at a concrete call. -/
theorem c10_empty_substring_witness :
    xpath_to_offsets specLib "<div><p>Hello</p><p>World</p></div>" "//p[1]" (some "") =
      xpath_to_offsets specLib "<div><p>Hello</p><p>World</p></div>" "//p[1]" none :=
  (c10_empty_substring_like_none specLib "<div><p>Hello</p><p>World</p></div>" "//p[1]").1

/-- C8: every successful call returns a well-ordered span
`0 ≤ start ≤ end`. -/
theorem c8_span_ordering {Doc Node : Type} (lib : HtmlLib Doc Node)
    (h x : String) (sub : Option String) (st en : Nat)
    (hok : xpath_to_offsets lib h x sub = .ok (st, en)) :
    0 ≤ st ∧ st ≤ en := by
  obtain ⟨node, rest, gs, ge, _hms, hlook, hcase⟩ :=
    xpath_to_offsets_ok lib h x sub st en hok
  refine ⟨Nat.zero_le st, ?_⟩
  rcases hcase with ⟨s, _, _, i, _, hst, hen⟩ | ⟨_, hst, hen⟩
  · omega
  · obtain ⟨d, _, he, _, _⟩ := dictLookup_buildIndex_some _ 0 _ gs ge hlook
    omega

/-- Witness for C8 at a concrete successful call. -/
theorem c8_span_ordering_witness : 0 ≤ 0 ∧ 0 ≤ 5 :=
  c8_span_ordering specLib "<div><p>Hello</p><p>World</p></div>" "//p[1]" none 0 5 rfl

/-- C6: when no substring is provided, a successful call's span has exactly
the length of the matched node's stringified text. -/
theorem c6_full_span_length {Doc Node : Type} (lib : HtmlLib Doc Node)
    (h x : String) (st en : Nat) (node : Node) (rest : List Node)
    (hms : lib.xpath (lib.fromstring h) x = node :: rest)
    (hok : xpath_to_offsets lib h x none = .ok (st, en)) :
    en - st = (lib.str node).length := by
  obtain ⟨node', rest', gs, ge, hms', hlook, hcase⟩ :=
    xpath_to_offsets_ok lib h x none st en hok
  have hcons := hms.symm.trans hms'
  injection hcons with e1 _
  subst e1
  rcases hcase with ⟨s, hs, _⟩ | ⟨_, hst, hen⟩
  · cases hs
  · obtain ⟨d, _, he, _, _⟩ := dictLookup_buildIndex_some _ 0 _ gs ge hlook
    omega

/-- Witness for C6 at a concrete call. -/
theorem c6_full_span_length_witness :
    10 - 5 = (specLib.str (HNode.elem "p" [HNode.text "World"])).length :=
  c6_full_span_length specLib "<div><p>Hello</p><p>World</p></div>" "//p[2]" 5 10
    (HNode.elem "p" [HNode.text "World"]) [] rfl rfl

/-- Counterexample to C2 as stated: the empty substring is provided and
occurs in the matched text `"Hello"`, yet the successful call returns the
full span `(0, 5)`, whose length is not `length ""` = 0. -/
theorem c2_counterexample_empty_substring :
    occursIn "" "Hello"
    ∧ xpath_to_offsets specLib "<div><p>Hello</p><p>World</p></div>" "//p[1]" (some "") =
      .ok (0, 5)
    ∧ 5 - 0 ≠ ("" : String).length :=
  ⟨⟨[], "Hello".data, rfl⟩, rfl, by decide⟩

/-- C2 (amended): for every provided NON-EMPTY substring, a successful call
returns a span whose length is exactly the substring's length. -/
theorem c2_amended_substring_length {Doc Node : Type} (lib : HtmlLib Doc Node)
    (h x s : String) (st en : Nat)
    (hok : xpath_to_offsets lib h x (some s) = .ok (st, en)) (hs : s ≠ "") :
    en - st = s.length := by
  obtain ⟨node, rest, gs, ge, _hms, _hlook, hcase⟩ :=
    xpath_to_offsets_ok lib h x (some s) st en hok
  rcases hcase with ⟨s', hs', _hne, i, _hfind, hst, hen⟩ | ⟨habs, hst, hen⟩
  · injection hs' with he
    subst he
    omega
  · rcases habs with hno | hemp
    · cases hno
    · injection hemp with he
      exact absurd he hs

/-- Witness for the amended C2 at the spec's Scenario D. -/
theorem c2_amended_substring_length_witness :
    xpath_to_offsets specLib "<div><p>Hello World</p></div>" "//p" (some "World") =
      .ok (6, 11)
    ∧ 11 - 6 = ("World" : String).length :=
  ⟨rfl, c2_amended_substring_length specLib "<div><p>Hello World</p></div>" "//p" "World"
    6 11 rfl (by decide)⟩

/-- Counterexample to C1 as stated: on the `Same`/`Same` document the call
does return the second paragraph's offsets, but those are `(4, 8)` (the
flattened text is `"SameSame"`), not the `(5, 9)` the claim asserts. -/
theorem c1_counterexample_wrong_numbers :
    xpath_to_offsets specLib "<div><p>Same</p><p>Same</p></div>" "//p[1]" none = .ok (4, 8)
    ∧ ((4, 8) : Nat × Nat) ≠ (5, 9) :=
  ⟨rfl, by decide⟩

/-- C1 (amended): keying the index by text content makes a later duplicate
fragment overwrite an earlier one — lookup returns the span of the LAST
occurrence, starting at the summed length of everything before it — and so
on `<div><p>Same</p><p>Same</p></div>` with xpath `//p[1]` the call returns
the second paragraph's offsets `(4, 8)`, not the first's `(0, 4)`. -/
theorem c1_amended_last_occurrence_survives :
    (∀ (texts : List String) (key : String), key ∈ texts →
      ∃ pre post, texts = pre ++ key :: post ∧ key ∉ post ∧
        dictLookup (buildIndex texts 0).2 key =
          some (strsLen pre, strsLen pre + key.length))
    ∧ xpath_to_offsets specLib "<div><p>Same</p><p>Same</p></div>" "//p[1]" none =
      .ok (4, 8) := by
  constructor
  · intro texts key hmem
    obtain ⟨pre, post, h1, h2, h3⟩ := dictLookup_buildIndex_last texts 0 key hmem
    refine ⟨pre, post, h1, h2, ?_⟩
    simpa using h3
  · rfl

/-- Witness for the amended C1 on the duplicate-fragment traversal. -/
theorem c1_amended_witness :
    ∃ pre post, (["Same", "Same"] : List String) = pre ++ "Same" :: post ∧ "Same" ∉ post ∧
      dictLookup (buildIndex ["Same", "Same"] 0).2 "Same" =
        some (strsLen pre, strsLen pre + "Same".length) :=
  c1_amended_last_occurrence_survives.1 ["Same", "Same"] "Same" (by decide)

/-- C7: the recorded spans are contiguous and gap-free — there is one
assignment per fragment, the `i`-th fragment's recorded start is the summed
length of the fragments before it and its end adds its own length, and the
concatenation of all fragments in traversal order is the flattened text. -/
theorem c7_contiguous_spans (texts : List String) :
    ((buildIndex texts 0).2).length = texts.length
    ∧ (∀ i t, texts[i]? = some t →
        ((buildIndex texts 0).2)[i]? =
          some (t, strsLen (texts.take i), strsLen (texts.take i) + t.length))
    ∧ (buildIndex texts 0).1 = texts.foldr (fun a b => a ++ b) "" := by
  refine ⟨?_, ?_, buildIndex_fst texts 0⟩
  · have hline := congrArg List.length (buildIndex_keys texts 0)
    simpa using hline
  · intro i t ht
    rw [buildIndex_entry texts 0 i, ht]
    simp

/-- Witness for C7 at a concrete traversal and index. -/
theorem c7_contiguous_spans_witness :
    ((buildIndex ["Hello", "World"] 0).2)[1]? =
      some ("World", strsLen (["Hello", "World"].take 1),
        strsLen (["Hello", "World"].take 1) + "World".length) :=
  (c7_contiguous_spans ["Hello", "World"]).2.1 1 "World" rfl

/-- Counterexample to C5 as stated: the empty substring is provided, the
document's fragments are pairwise distinct, the call succeeds with span
`(0, 5)`, yet the flattened text sliced there is `"Hello"`, not the provided
substring `""`. -/
theorem c5_counterexample_empty_substring :
    xpath_to_offsets specLib "<div><p>Hello</p><p>World</p></div>" "//p[1]" (some "") =
      .ok (0, 5)
    ∧ (specLib.itertext (specLib.fromstring "<div><p>Hello</p><p>World</p></div>")).Nodup
    ∧ pySlice
        (buildIndex (specLib.itertext
          (specLib.fromstring "<div><p>Hello</p><p>World</p></div>")) 0).1 0 5 = "Hello"
    ∧ ("Hello" : String) ≠ "" :=
  ⟨rfl, by decide, rfl, by decide⟩

/-- C5 (amended): for a successful call, slicing the flattened text at the
returned span yields the provided substring when a NON-EMPTY one was given
(under the claim's no-duplicate-fragment hypothesis), and yields the matched
node's stringified text when the substring was absent or empty. -/
theorem c5_amended_concat_invariant {Doc Node : Type} (lib : HtmlLib Doc Node)
    (h x : String) (sub : Option String) (st en : Nat)
    (hok : xpath_to_offsets lib h x sub = .ok (st, en)) :
    (∀ s, sub = some s → s ≠ "" →
        (lib.itertext (lib.fromstring h)).Nodup →
        pySlice (buildIndex (lib.itertext (lib.fromstring h)) 0).1 st en = s)
    ∧ ((sub = none ∨ sub = some "") →
        ∀ node rest, lib.xpath (lib.fromstring h) x = node :: rest →
          pySlice (buildIndex (lib.itertext (lib.fromstring h)) 0).1 st en =
            lib.str node) := by
  obtain ⟨node, rest, gs, ge, hms, hlook, hcase⟩ :=
    xpath_to_offsets_ok lib h x sub st en hok
  constructor
  · intro s hsub _hne _hnodup
    rcases hcase with ⟨s', hs', _hne', i, hfind, hst, hen⟩ | ⟨habs, _, _⟩
    · rw [hsub] at hs'
      injection hs' with he
      subst he
      subst hst
      subst hen
      exact slice_of_lookup_findSub _ _ _ gs ge i hlook hfind
    · rcases habs with hno | hemp
      · rw [hsub] at hno
        cases hno
      · rw [hsub] at hemp
        injection hemp with he
        exact absurd he _hne
  · intro _habs node' rest' hms'
    have hcons := hms.symm.trans hms'
    injection hcons with e1 _
    subst e1
    rcases hcase with ⟨s', hs', hne', i, hfind, hst, hen⟩ | ⟨_, hst, hen⟩
    · rcases _habs with hno | hemp
      · rw [hno] at hs'
        cases hs'
      · rw [hemp] at hs'
        injection hs' with he
        exact absurd he.symm hne'
    · rw [hst, hen]
      exact slice_of_lookup _ _ gs ge hlook

/-- Witness for the amended C5 at the spec's Scenario D. -/
theorem c5_amended_concat_invariant_witness :
    pySlice
      (buildIndex (specLib.itertext (specLib.fromstring "<div><p>Hello World</p></div>")) 0).1
      6 11 = "World" :=
  (c5_amended_concat_invariant specLib "<div><p>Hello World</p></div>" "//p" (some "World")
    6 11 rfl).1 "World" rfl (by decide) (by decide)

/-- C3: total outcome taxonomy of `xpath_to_offsets` — the call either
succeeds with a span or fails with exactly one of the three errors, each
raised precisely under its condition in the sequential pipeline: no-match
when the XPath match list is empty; lookup-failure when a match exists but
its stringified text is not among the traversed fragments (the index keys);
substring-not-found when a match exists, its text is indexed, a substring
was given and does not occur in that text; and success in exactly the
remaining cases. -/
theorem c3_error_taxonomy {Doc Node : Type} (lib : HtmlLib Doc Node)
    (h x : String) (sub : Option String) :
    (xpath_to_offsets lib h x sub = .error (.noMatch x) ↔
      lib.xpath (lib.fromstring h) x = [])
    ∧ (∀ t, xpath_to_offsets lib h x sub = .error (.lookupFailure t) ↔
        ∃ node rest, lib.xpath (lib.fromstring h) x = node :: rest ∧ t = lib.str node ∧
          t ∉ lib.itertext (lib.fromstring h))
    ∧ (∀ s t, xpath_to_offsets lib h x sub = .error (.substringNotFound s t) ↔
        ∃ node rest, lib.xpath (lib.fromstring h) x = node :: rest ∧ t = lib.str node ∧
          t ∈ lib.itertext (lib.fromstring h) ∧ sub = some s ∧ ¬ occursIn s t)
    ∧ ((∃ p, xpath_to_offsets lib h x sub = .ok p) ↔
        ∃ node rest, lib.xpath (lib.fromstring h) x = node :: rest ∧
          lib.str node ∈ lib.itertext (lib.fromstring h) ∧
          ∀ s, sub = some s → s = "" ∨ occursIn s (lib.str node)) := by
  cases hms : lib.xpath (lib.fromstring h) x with
  | nil =>
    have hf : xpath_to_offsets lib h x sub = .error (.noMatch x) := by
      rw [xpath_to_offsets_eq, hms]
    refine ⟨by simp [hf], ?_, ?_, by simp [hf]⟩
    · intro t
      simp [hf]
    · intro s t
      simp [hf]
  | cons node rest =>
    have hmemiff :=
      dictLookup_buildIndex_eq_none_iff (lib.itertext (lib.fromstring h)) 0 (lib.str node)
    cases hlook : dictLookup (buildIndex (lib.itertext (lib.fromstring h)) 0).2
        (lib.str node) with
    | none =>
      have hmem : lib.str node ∉ lib.itertext (lib.fromstring h) := hmemiff.mp hlook
      have hf : xpath_to_offsets lib h x sub = .error (.lookupFailure (lib.str node)) := by
        rw [xpath_to_offsets_eq, hms]
        simp [hlook]
      refine ⟨by simp [hf], ?_, ?_, ?_⟩
      · intro t
        rw [hf]
        constructor
        · intro he
          simp only [Except.error.injEq, XPathError.lookupFailure.injEq] at he
          exact ⟨node, rest, rfl, he.symm, he ▸ hmem⟩
        · rintro ⟨node', rest', hcons, ht, _hmem'⟩
          injection hcons with e1 _
          subst e1
          subst ht
          rfl
      · intro s t
        rw [hf]
        constructor
        · intro he
          exact absurd he (by simp)
        · rintro ⟨node', rest', hcons, ht, hmem', _hsub, _hnocc⟩
          injection hcons with e1 _
          subst e1
          subst ht
          exact absurd hmem' hmem
      · rw [hf]
        constructor
        · rintro ⟨p, hp⟩
          exact absurd hp (by simp)
        · rintro ⟨node', rest', hcons, hmem', _⟩
          injection hcons with e1 _
          subst e1
          exact absurd hmem' hmem
    | some p =>
      obtain ⟨gs, ge⟩ := p
      have hmem : lib.str node ∈ lib.itertext (lib.fromstring h) := by
        by_contra hc
        have hnone := hmemiff.mpr hc
        rw [hlook] at hnone
        cases hnone
      cases sub with
      | none =>
        have hf : xpath_to_offsets lib h x none = .ok (gs, ge) := by
          rw [xpath_to_offsets_eq, hms]
          simp [hlook]
        refine ⟨by simp [hf], ?_, ?_, ?_⟩
        · intro t
          rw [hf]
          constructor
          · intro he
            exact absurd he (by simp)
          · rintro ⟨node', rest', hcons, ht, hmem'⟩
            injection hcons with e1 _
            subst e1
            subst ht
            exact absurd hmem hmem'
        · intro s t
          rw [hf]
          constructor
          · intro he
            exact absurd he (by simp)
          · rintro ⟨node', rest', hcons, ht, hmem', hsub, _hnocc⟩
            cases hsub
        · constructor
          · intro _
            exact ⟨node, rest, rfl, hmem, fun s hs => by cases hs⟩
          · intro _
            exact ⟨(gs, ge), hf⟩
      | some s =>
        by_cases hs : s = ""
        · subst hs
          have hf : xpath_to_offsets lib h x (some "") = .ok (gs, ge) := by
            rw [xpath_to_offsets_eq, hms]
            simp [hlook]
          refine ⟨by simp [hf], ?_, ?_, ?_⟩
          · intro t
            rw [hf]
            constructor
            · intro he
              exact absurd he (by simp)
            · rintro ⟨node', rest', hcons, ht, hmem'⟩
              injection hcons with e1 _
              subst e1
              subst ht
              exact absurd hmem hmem'
          · intro s' t
            rw [hf]
            constructor
            · intro he
              exact absurd he (by simp)
            · rintro ⟨node', rest', hcons, ht, hmem', hsub, hnocc⟩
              injection hsub with he'
              exact absurd (he' ▸ occursIn_empty t) hnocc
          · constructor
            · intro _
              refine ⟨node, rest, rfl, hmem, ?_⟩
              intro s' hs'
              injection hs' with he'
              exact Or.inl he'.symm
            · intro _
              exact ⟨(gs, ge), hf⟩
        · cases hfind : findSub s.data (lib.str node).data with
          | none =>
            have hnocc : ¬ occursIn s (lib.str node) := by
              intro hocc
              obtain ⟨i, hi⟩ := (findSub_isSome_iff s.data (lib.str node).data).mpr hocc
              rw [hfind] at hi
              cases hi
            have hf : xpath_to_offsets lib h x (some s) =
                .error (.substringNotFound s (lib.str node)) := by
              rw [xpath_to_offsets_eq, hms]
              simp [hlook, hs, hfind]
            refine ⟨by simp [hf], ?_, ?_, ?_⟩
            · intro t
              rw [hf]
              constructor
              · intro he
                exact absurd he (by simp)
              · rintro ⟨node', rest', hcons, ht, hmem'⟩
                injection hcons with e1 _
                subst e1
                subst ht
                exact absurd hmem hmem'
            · intro s' t
              rw [hf]
              constructor
              · intro he
                simp only [Except.error.injEq, XPathError.substringNotFound.injEq] at he
                obtain ⟨hes, het⟩ := he
                subst hes
                subst het
                exact ⟨node, rest, rfl, rfl, hmem, rfl, hnocc⟩
              · rintro ⟨node', rest', hcons, ht, _hmem', hsub, _hnocc'⟩
                injection hcons with e1 _
                subst e1
                injection hsub with hes
                subst hes
                subst ht
                rfl
            · constructor
              · rintro ⟨p, hp⟩
                rw [hf] at hp
                exact absurd hp (by simp)
              · rintro ⟨node', rest', hcons, _hmem', hocc⟩
                injection hcons with e1 _
                subst e1
                rcases hocc s rfl with he | ho
                · exact absurd he hs
                · exact absurd ho hnocc
          | some i =>
            have hocc : occursIn s (lib.str node) :=
              (findSub_isSome_iff s.data (lib.str node).data).mp ⟨i, hfind⟩
            have hf : xpath_to_offsets lib h x (some s) =
                .ok (gs + i, gs + i + s.length) := by
              rw [xpath_to_offsets_eq, hms]
              simp [hlook, hs, hfind]
            refine ⟨by simp [hf], ?_, ?_, ?_⟩
            · intro t
              rw [hf]
              constructor
              · intro he
                exact absurd he (by simp)
              · rintro ⟨node', rest', hcons, ht, hmem'⟩
                injection hcons with e1 _
                subst e1
                subst ht
                exact absurd hmem hmem'
            · intro s' t
              rw [hf]
              constructor
              · intro he
                exact absurd he (by simp)
              · rintro ⟨node', rest', hcons, ht, _hmem', hsub, hnocc'⟩
                injection hcons with e1 _
                subst e1
                injection hsub with hes
                subst hes
                subst ht
                exact absurd hocc hnocc'
            · constructor
              · intro _
                refine ⟨node, rest, rfl, hmem, ?_⟩
                intro s' hs'
                injection hs' with hes
                subst hes
                exact Or.inr hocc
              · intro _
                exact ⟨(gs + i, gs + i + s.length), hf⟩

/-- Witness for C3 at the spec's Scenario C (`//span`, no match). -/
theorem c3_error_taxonomy_witness :
    xpath_to_offsets specLib "<div><p>Hello</p><p>World</p></div>" "//span" none =
      .error (.noMatch "//span") :=
  (c3_error_taxonomy specLib "<div><p>Hello</p><p>World</p></div>" "//span" none).1.mpr rfl
